import Mathlib

/-!
Shallow embedding of `cyber_attack_simulator/agents/sarsa.py` (`SarsaAgent`).

Modelling conventions:
- Environment states are opaque hashable tokens; we model them as `StateId := ℕ`.
- The agent only ever uses the action space through its length and through
  indices into it, so operations take the length `k : ℕ` in place of the list.
- Python floats are modelled as exact rationals `ℚ`; the library functions
  `np.sqrt` and `np.log` are abstracted as explicit function parameters
  `sqrt log : ℚ → ℚ` of the UCB selection (their pointwise values never
  matter for the claims, only where and on what arguments they are applied).
- The mutable dictionaries `q_table` / `n_table` are modelled as total
  functions `StateId → Option (vector)`; mutation becomes explicit state
  passing: each operation that may mutate the agent returns the new agent.
- Randomness (`np.random.uniform(0, 1)` and `np.random.randint`) is modelled
  by explicit inputs `u : ℚ` (the uniform draw) and `j : ℕ` (the random
  index), constrained by hypotheses to their documented ranges.
-/

abbrev StateId := ℕ

/-- The agent record: configuration fields plus the two lazily-filled tables
(`n_table`, `q_table`), mirroring `SarsaAgent.__init__`. -/
structure SarsaAgent where
  type : String
  alpha : ℚ
  gamma : ℚ
  max_epsilon : ℚ
  min_epsilon : ℚ
  c : ℚ
  n_table : StateId → Option (List ℕ)
  q_table : StateId → Option (List ℚ)

/-- `SarsaAgent.types = ["UCB", "egreedy"]`. -/
def SarsaAgent.types : List String := ["UCB", "egreedy"]

/-- `SarsaAgent.__init__`: raises `ValueError` when `type` is not in
`types`, otherwise stores the hyperparameters unvalidated and creates the
two empty tables. -/
def SarsaAgent.init (type : String) (alpha gamma max_epsilon min_epsilon c : ℚ) :
    Except String SarsaAgent :=
  if type ∈ SarsaAgent.types then
    Except.ok { type := type, alpha := alpha, gamma := gamma,
                max_epsilon := max_epsilon, min_epsilon := min_epsilon, c := c,
                n_table := fun _ => none, q_table := fun _ => none }
  else
    Except.error "type must be in: [UCB, egreedy]"

/-- `SarsaAgent._q(state, action_space)` (no `action` argument): inserts a
zero vector of length `k = len(action_space)` if `state` is absent, and
returns (the new agent together with) the stored vector. -/
def SarsaAgent.qVec (ag : SarsaAgent) (state : StateId) (k : ℕ) :
    SarsaAgent × List ℚ :=
  match ag.q_table state with
  | some v => (ag, v)
  | none =>
    let v := List.replicate k (0 : ℚ)
    ({ ag with q_table := fun s => if s = state then some v else ag.q_table s }, v)

/-- `SarsaAgent._q(state, action_space, action)`: as `qVec`, indexed. -/
def SarsaAgent.qGet (ag : SarsaAgent) (state : StateId) (k : ℕ) (action : ℕ) :
    SarsaAgent × ℚ :=
  let p := ag.qVec state k
  (p.1, p.2.getD action 0)

/-- `SarsaAgent._n(state, action_space)`: inserts a zero count vector of
length `k` if `state` is absent, and returns the stored vector. -/
def SarsaAgent.nVec (ag : SarsaAgent) (state : StateId) (k : ℕ) :
    SarsaAgent × List ℕ :=
  match ag.n_table state with
  | some v => (ag, v)
  | none =>
    let v := List.replicate k (0 : ℕ)
    ({ ag with n_table := fun s => if s = state then some v else ag.n_table s }, v)

/-- `self._n(s, a_space)[a] += 1` from `_run_episode`: increments the visit
count of `(state, action)` by one. -/
def SarsaAgent.nIncrement (ag : SarsaAgent) (state : StateId) (k : ℕ) (action : ℕ) :
    SarsaAgent :=
  let p := ag.nVec state k
  { p.1 with n_table := fun s =>
      if s = state then some (p.2.set action (p.2.getD action 0 + 1))
      else p.1.n_table s }

/-- First index of the maximum of a list, scanning left to right and keeping
the current best unless a strictly greater value appears: the semantics of
`np.argmax` (ties broken by the lowest index). -/
def argmaxGo (l : List ℚ) (bi : ℕ) (bv : ℚ) (i : ℕ) : ℕ :=
  match l with
  | [] => bi
  | x :: xs => if bv < x then argmaxGo xs i x (i + 1) else argmaxGo xs bi bv (i + 1)

/-- `np.argmax` on a (nonempty) vector; on `[]` we return `0` (the source
never applies it to an empty vector). -/
def argmax : List ℚ → ℕ
  | [] => 0
  | x :: xs => argmaxGo xs 0 x 1

/-- First index holding `0` in a count vector: the semantics of
`np.argwhere(n == 0).flatten()[0]` (the source only evaluates it under the
guard `np.any(n == 0)`). -/
def firstZeroIdx : List ℕ → ℕ
  | [] => 0
  | x :: xs => if x = 0 then 0 else firstZeroIdx xs + 1

/-- `SarsaAgent._choose_action_egreedy`: with `u` the value drawn by
`np.random.uniform(0, 1)` and `j` the value drawn by
`np.random.randint(0, len(action_space))`, return `j` if `u < epsilon`,
otherwise `np.argmax(self._q(state, action_space))`. -/
def SarsaAgent.chooseActionEgreedy (ag : SarsaAgent) (state : StateId) (k : ℕ)
    (epsilon : ℚ) (u : ℚ) (j : ℕ) : SarsaAgent × ℕ :=
  if u < epsilon then (ag, j)
  else
    let p := ag.qVec state k
    (p.1, argmax p.2)

/-- `SarsaAgent._choose_action_ucb`: if any visit count is zero return the
first such index; otherwise return the argmax of
`q + c * sqrt(2 * (log(sum n) / n))` (elementwise), with `sqrt`/`log`
abstracting `np.sqrt`/`np.log`. -/
def SarsaAgent.chooseActionUcb (ag : SarsaAgent) (state : StateId) (k : ℕ)
    (c : ℚ) (sqrt log : ℚ → ℚ) : SarsaAgent × ℕ :=
  let p := ag.nVec state k
  let n := p.2
  if 0 ∈ n then
    (p.1, firstZeroIdx n)
  else
    let logStateVisits := log ((n.sum : ℚ))
    let bonuses := n.map (fun (na : ℕ) => c * sqrt (2 * (logStateVisits / (na : ℚ))))
    let pq := p.1.qVec state k
    let adj := List.zipWith (fun a b => a + b) pq.2 bonuses
    (pq.1, argmax adj)

/-- `SarsaAgent._choose_action`: dispatch on the stored strategy tag. -/
def SarsaAgent.chooseAction (ag : SarsaAgent) (state : StateId) (k : ℕ)
    (param : ℚ) (sqrt log : ℚ → ℚ) (u : ℚ) (j : ℕ) : SarsaAgent × ℕ :=
  if ag.type = "UCB" then ag.chooseActionUcb state k param sqrt log
  else ag.chooseActionEgreedy state k param u j

/-- `SarsaAgent._choose_greedy_action`: `_choose_action` with the default
hyperparameter `param = 0.0`. -/
def SarsaAgent.chooseGreedyAction (ag : SarsaAgent) (state : StateId) (k : ℕ)
    (sqrt log : ℚ → ℚ) (u : ℚ) (j : ℕ) : SarsaAgent × ℕ :=
  ag.chooseAction state k 0 sqrt log u j

/-- `SarsaAgent._q_update`: reads `current_q = Q(s, a)` and
`new_q = Q(s', a')` (each read inserting a zero vector if the state is
absent), then overwrites entry `a` of `s`'s vector with
`current_q + alpha * (r + gamma * new_q - current_q)`. -/
def SarsaAgent.qUpdate (ag : SarsaAgent) (s : StateId) (a : ℕ)
    (sNew : StateId) (aNew : ℕ) (r : ℚ) (k : ℕ) : SarsaAgent :=
  let p1 := ag.qGet s k a
  let currentQ := p1.2
  let p2 := p1.1.qGet sNew k aNew
  let newQ := p2.2
  let tdError := r + ag.gamma * newQ - currentQ
  let p3 := p2.1.qVec s k
  { p3.1 with q_table := fun t =>
      if t = s then some (p3.2.set a (currentQ + ag.alpha * tdError))
      else p3.1.q_table t }

/-- One iteration of the inner loop of `SarsaAgent._run_episode`, with the
environment's response `(sNew, r)` and the random draws passed in
explicitly: increment the visit count of `(s, a)`, choose `a'` for `s'`,
apply the SARSA update, and advance `(s, a)` to `(s', a')`. -/
def SarsaAgent.episodeStep (ag : SarsaAgent) (s : StateId) (a : ℕ)
    (sNew : StateId) (r : ℚ) (k : ℕ) (param : ℚ) (sqrt log : ℚ → ℚ)
    (u : ℚ) (j : ℕ) : SarsaAgent × StateId × ℕ :=
  let ag1 := ag.nIncrement s k a
  let p := ag1.chooseAction sNew k param sqrt log u j
  let aNew := p.2
  let ag2 := p.1.qUpdate s a sNew aNew r k
  (ag2, sNew, aNew)

/-- `SarsaAgent._epsilon_decay(num_episodes, e)`:
`max_epsilon - ((max_epsilon - min_epsilon) / num_episodes) * e`. -/
def SarsaAgent.epsilonDecay (ag : SarsaAgent) (numEpisodes : ℕ) (e : ℕ) : ℚ :=
  let step := (ag.max_epsilon - ag.min_epsilon) / (numEpisodes : ℚ)
  ag.max_epsilon - step * (e : ℚ)

/-- The exploration hyperparameter `param` actually passed to
`_run_episode` for episode `e` in `SarsaAgent.train`: initialized to `c`
(UCB) or `max_epsilon` (egreedy) before episode `0`, and, only for
egreedy, reassigned to `_epsilon_decay(num_episodes, e)` after episode `e`
finishes. -/
def SarsaAgent.trainParam (ag : SarsaAgent) (numEpisodes : ℕ) : ℕ → ℚ
  | 0 => if ag.type = "UCB" then ag.c else ag.max_epsilon
  | e + 1 => if ag.type = "egreedy" then ag.epsilonDecay numEpisodes e
             else ag.trainParam numEpisodes e

/-- `SarsaAgent.reset`: replaces both tables with fresh empty containers. -/
def SarsaAgent.reset (ag : SarsaAgent) : SarsaAgent :=
  { ag with n_table := fun _ => none, q_table := fun _ => none }

/-- Q-value of `(s, i)` as observable through the table alone: the stored
entry, `0` when the state is absent (the value first access would create). -/
def SarsaAgent.qAt (ag : SarsaAgent) (s : StateId) (i : ℕ) : ℚ :=
  ((ag.q_table s).getD []).getD i 0

/-- Visit count of `(s, i)` as observable through the table alone. -/
def SarsaAgent.nAt (ag : SarsaAgent) (s : StateId) (i : ℕ) : ℕ :=
  ((ag.n_table s).getD []).getD i 0

/-! ### Small list facts -/

lemma getD_set_ne {l : List ℚ} {a i : ℕ} {x : ℚ} (h : a ≠ i) :
    (l.set a x).getD i 0 = l.getD i 0 := by
  simp [List.getD_eq_getElem?_getD, List.getElem?_set_ne h]

lemma getD_set_self {l : List ℚ} {a : ℕ} {x : ℚ} (h : a < l.length) :
    (l.set a x).getD a 0 = x := by
  simp [List.getD_eq_getElem?_getD, List.getElem?_set_self', List.getElem?_eq_getElem h]

lemma getD_replicate_zero (k i : ℕ) : (List.replicate k (0 : ℚ)).getD i 0 = 0 := by
  simp only [List.getD_eq_getElem?_getD, List.getElem?_replicate]
  split <;> simp

lemma getD_replicate_zero_nat (k i : ℕ) : (List.replicate k (0 : ℕ)).getD i 0 = 0 := by
  simp only [List.getD_eq_getElem?_getD, List.getElem?_replicate]
  split <;> simp

lemma getD_set_nat_le (l : List ℕ) (a i : ℕ) (x : ℕ) (hx : l.getD a 0 ≤ x) :
    l.getD i 0 ≤ (l.set a x).getD i 0 := by
  by_cases hai : a = i
  · subst hai
    by_cases hl : a < l.length
    · simp only [List.getD_eq_getElem?_getD, List.getElem?_set_self',
        List.getElem?_eq_getElem hl]
      simpa [List.getD_eq_getElem?_getD, List.getElem?_eq_getElem hl] using hx
    · rw [List.set_eq_of_length_le (Nat.le_of_not_lt hl)]
  · simp [List.getD_eq_getElem?_getD, List.getElem?_set_ne hai]

/-! ### Properties of the argmax scan -/

lemma argmaxGo_spec (l : List ℚ) (bi i : ℕ) (bv : ℚ) :
    (argmaxGo l bi bv i = bi ∧ ∀ j, j < l.length → l.getD j 0 ≤ bv)
    ∨ (∃ j, j < l.length ∧ argmaxGo l bi bv i = i + j
        ∧ bv < l.getD j 0
        ∧ (∀ j', j' < l.length → l.getD j' 0 ≤ l.getD j 0)
        ∧ (∀ j', j' < j → l.getD j' 0 < l.getD j 0)) := by
  induction l generalizing bi bv i with
  | nil =>
    left
    exact ⟨rfl, fun j h => absurd h (Nat.not_lt_zero j)⟩
  | cons x xs ih =>
    by_cases hx : bv < x
    · right
      rw [argmaxGo, if_pos hx]
      rcases ih i (i + 1) x with ⟨heq, hle⟩ | ⟨j, hj, heq, hgt, hmax, hfirst⟩
      · refine ⟨0, Nat.succ_pos _, heq.trans (Nat.add_zero i).symm, ?_, ?_, ?_⟩
        · simpa using hx
        · intro j' hj'
          match j' with
          | 0 => simp
          | j'' + 1 =>
            simp only [List.getD_cons_succ, List.getD_cons_zero]
            exact hle j'' (by simpa using hj')
        · intro j' hj'
          exact absurd hj' (Nat.not_lt_zero j')
      · refine ⟨j + 1, by simpa using hj, by rw [heq]; omega, ?_, ?_, ?_⟩
        · simp only [List.getD_cons_succ]
          exact lt_trans hx hgt
        · intro j' hj'
          match j' with
          | 0 =>
            simp only [List.getD_cons_zero, List.getD_cons_succ]
            exact le_of_lt hgt
          | j'' + 1 =>
            simp only [List.getD_cons_succ]
            exact hmax j'' (by simpa using hj')
        · intro j' hj'
          match j' with
          | 0 =>
            simp only [List.getD_cons_zero, List.getD_cons_succ]
            exact hgt
          | j'' + 1 =>
            simp only [List.getD_cons_succ]
            exact hfirst j'' (by omega)
    · rw [argmaxGo, if_neg hx]
      rcases ih bi (i + 1) bv with ⟨heq, hle⟩ | ⟨j, hj, heq, hgt, hmax, hfirst⟩
      · left
        refine ⟨heq, ?_⟩
        intro j hjl
        match j with
        | 0 => simpa using le_of_not_lt hx
        | j'' + 1 =>
          simp only [List.getD_cons_succ]
          exact hle j'' (by simpa using hjl)
      · right
        refine ⟨j + 1, by simpa using hj, by rw [heq]; omega, ?_, ?_, ?_⟩
        · simp only [List.getD_cons_succ]
          exact hgt
        · intro j' hj'
          match j' with
          | 0 =>
            simp only [List.getD_cons_zero, List.getD_cons_succ]
            exact le_of_lt (lt_of_le_of_lt (le_of_not_lt hx) hgt)
          | j'' + 1 =>
            simp only [List.getD_cons_succ]
            exact hmax j'' (by simpa using hj')
        · intro j' hj'
          match j' with
          | 0 =>
            simp only [List.getD_cons_zero, List.getD_cons_succ]
            exact lt_of_le_of_lt (le_of_not_lt hx) hgt
          | j'' + 1 =>
            simp only [List.getD_cons_succ]
            exact hfirst j'' (by omega)

lemma argmax_lt_length (l : List ℚ) (h : 0 < l.length) : argmax l < l.length := by
  match l with
  | x :: xs =>
    rw [argmax]
    rcases argmaxGo_spec xs 0 1 x with ⟨heq, _⟩ | ⟨j, hj, heq, _⟩
    · simp [heq]
    · rw [heq]
      simp only [List.length_cons]
      omega

lemma getD_le_argmax (l : List ℚ) (j : ℕ) (hj : j < l.length) :
    l.getD j 0 ≤ l.getD (argmax l) 0 := by
  match l with
  | x :: xs =>
    rw [argmax]
    rcases argmaxGo_spec xs 0 1 x with ⟨heq, hle⟩ | ⟨i, hi, heq, hgt, hmax, _⟩
    · rw [heq]
      match j with
      | 0 => simp
      | j'' + 1 =>
        simp only [List.getD_cons_succ, List.getD_cons_zero]
        exact hle j'' (by simpa using hj)
    · rw [heq, Nat.add_comm 1 i]
      simp only [List.getD_cons_succ]
      match j with
      | 0 =>
        simp only [List.getD_cons_zero]
        exact le_of_lt hgt
      | j'' + 1 =>
        simp only [List.getD_cons_succ]
        exact hmax j'' (by simpa using hj)

lemma getD_lt_of_lt_argmax (l : List ℚ) (j : ℕ) (hj : j < argmax l) :
    l.getD j 0 < l.getD (argmax l) 0 := by
  match l with
  | [] => simp [argmax] at hj
  | x :: xs =>
    rw [argmax] at hj ⊢
    rcases argmaxGo_spec xs 0 1 x with ⟨heq, _⟩ | ⟨i, hi, heq, hgt, _, hfirst⟩
    · rw [heq] at hj
      exact absurd hj (Nat.not_lt_zero j)
    · rw [heq, Nat.add_comm 1 i] at hj ⊢
      simp only [List.getD_cons_succ]
      match j with
      | 0 =>
        simp only [List.getD_cons_zero]
        exact hgt
      | j'' + 1 =>
        simp only [List.getD_cons_succ]
        exact hfirst j'' (by omega)

/-! ### Properties of the first-zero scan -/

lemma firstZeroIdx_spec (l : List ℕ) (h : 0 ∈ l) :
    firstZeroIdx l < l.length ∧ l.getD (firstZeroIdx l) 1 = 0 ∧
    ∀ j, j < firstZeroIdx l → l.getD j 1 ≠ 0 := by
  induction l with
  | nil => cases h
  | cons x xs ih =>
    by_cases hx : x = 0
    · refine ⟨?_, ?_, ?_⟩
      · simp [firstZeroIdx, hx]
      · simp [firstZeroIdx, hx]
      · intro j hj
        rw [firstZeroIdx, if_pos hx] at hj
        exact absurd hj (Nat.not_lt_zero j)
    · have hmem : 0 ∈ xs := by
        rcases List.mem_cons.mp h with h0 | h0
        · exact absurd h0.symm hx
        · exact h0
      obtain ⟨hlt, hval, hfirst⟩ := ih hmem
      rw [firstZeroIdx, if_neg hx]
      refine ⟨by simpa using hlt, by simpa using hval, ?_⟩
      intro j hj
      match j with
      | 0 => simpa using hx
      | j'' + 1 =>
        simp only [List.getD_cons_succ]
        exact hfirst j'' (by omega)

/-! ### Characterizations of the table operations -/

lemma qVec_snd (ag : SarsaAgent) (s : StateId) (k : ℕ) :
    (ag.qVec s k).2 = (ag.q_table s).getD (List.replicate k 0) := by
  rw [SarsaAgent.qVec]
  cases ag.q_table s <;> simp

lemma qVec_q_table (ag : SarsaAgent) (s : StateId) (k : ℕ) (t : StateId) :
    (ag.qVec s k).1.q_table t =
      if t = s then some ((ag.q_table s).getD (List.replicate k 0))
      else ag.q_table t := by
  rw [SarsaAgent.qVec]
  cases h : ag.q_table s with
  | some v =>
    by_cases ht : t = s <;> simp [ht, h]
  | none =>
    by_cases ht : t = s <;> simp [ht, h]

lemma qVec_n_table (ag : SarsaAgent) (s : StateId) (k : ℕ) :
    (ag.qVec s k).1.n_table = ag.n_table := by
  rw [SarsaAgent.qVec]
  cases ag.q_table s <;> rfl

lemma qVec_config (ag : SarsaAgent) (s : StateId) (k : ℕ) :
    (ag.qVec s k).1.type = ag.type ∧ (ag.qVec s k).1.alpha = ag.alpha ∧
    (ag.qVec s k).1.gamma = ag.gamma := by
  rw [SarsaAgent.qVec]
  cases ag.q_table s <;> exact ⟨rfl, rfl, rfl⟩

lemma nVec_snd (ag : SarsaAgent) (s : StateId) (k : ℕ) :
    (ag.nVec s k).2 = (ag.n_table s).getD (List.replicate k 0) := by
  rw [SarsaAgent.nVec]
  cases ag.n_table s <;> simp

lemma nVec_n_table (ag : SarsaAgent) (s : StateId) (k : ℕ) (t : StateId) :
    (ag.nVec s k).1.n_table t =
      if t = s then some ((ag.n_table s).getD (List.replicate k 0))
      else ag.n_table t := by
  rw [SarsaAgent.nVec]
  cases h : ag.n_table s with
  | some v =>
    by_cases ht : t = s <;> simp [ht, h]
  | none =>
    by_cases ht : t = s <;> simp [ht, h]

lemma nVec_q_table (ag : SarsaAgent) (s : StateId) (k : ℕ) :
    (ag.nVec s k).1.q_table = ag.q_table := by
  rw [SarsaAgent.nVec]
  cases ag.n_table s <;> rfl

lemma nIncrement_n_table (ag : SarsaAgent) (s : StateId) (k : ℕ) (a : ℕ)
    (t : StateId) :
    (ag.nIncrement s k a).n_table t =
      if t = s then
        some (((ag.n_table s).getD (List.replicate k 0)).set a
          ((((ag.n_table s).getD (List.replicate k 0)).getD a 0) + 1))
      else ag.n_table t := by
  rw [SarsaAgent.nIncrement]
  by_cases ht : t = s <;>
    simp [ht, nVec_snd, nVec_n_table]

lemma nIncrement_q_table (ag : SarsaAgent) (s : StateId) (k : ℕ) (a : ℕ) :
    (ag.nIncrement s k a).q_table = ag.q_table := by
  rw [SarsaAgent.nIncrement]
  simp [nVec_q_table]

lemma nIncrement_config (ag : SarsaAgent) (s : StateId) (k : ℕ) (a : ℕ) :
    (ag.nIncrement s k a).type = ag.type := by
  rw [SarsaAgent.nIncrement, SarsaAgent.nVec]
  cases ag.n_table s <;> rfl

lemma qUpdate_n_table (ag : SarsaAgent) (s : StateId) (a : ℕ) (sNew : StateId)
    (aNew : ℕ) (r : ℚ) (k : ℕ) :
    (ag.qUpdate s a sNew aNew r k).n_table = ag.n_table := by
  simp only [SarsaAgent.qUpdate, SarsaAgent.qGet, qVec_n_table]

lemma qUpdate_q_table (ag : SarsaAgent) (s : StateId) (a : ℕ) (sNew : StateId)
    (aNew : ℕ) (r : ℚ) (k : ℕ) (t : StateId) :
    (ag.qUpdate s a sNew aNew r k).q_table t =
      if t = s then
        some (((ag.q_table s).getD (List.replicate k 0)).set a
          (((ag.q_table s).getD (List.replicate k 0)).getD a 0
            + ag.alpha * (r
              + ag.gamma * (((ag.q_table sNew).getD (List.replicate k 0)).getD aNew 0)
              - ((ag.q_table s).getD (List.replicate k 0)).getD a 0)))
      else if t = sNew then some ((ag.q_table sNew).getD (List.replicate k 0))
      else ag.q_table t := by
  simp only [SarsaAgent.qUpdate, SarsaAgent.qGet]
  by_cases hts : t = s
  · subst hts
    by_cases hsn : sNew = t
    · simp [qVec_snd, qVec_q_table, hsn]
    · simp [qVec_snd, qVec_q_table, hsn, Ne.symm hsn]
  · by_cases htn : t = sNew
    · subst htn
      simp [qVec_snd, qVec_q_table, hts, Ne.symm hts]
    · simp [qVec_snd, qVec_q_table, hts, htn, Ne.symm hts, Ne.symm htn]

/-! ### The table invariants preserved by every agent operation -/

/-- The invariants of a pair of before/after agent states: no table key is
removed, the vector stored for a key keeps its length, and every visit
count is non-decreasing. -/
def SarsaAgent.Preserves (ag ag' : SarsaAgent) : Prop :=
  (∀ t v, ag.q_table t = some v → ∃ v', ag'.q_table t = some v' ∧ v'.length = v.length)
  ∧ (∀ t v, ag.n_table t = some v → ∃ v', ag'.n_table t = some v' ∧ v'.length = v.length)
  ∧ (∀ t i, ag.nAt t i ≤ ag'.nAt t i)

lemma preserves_refl (ag : SarsaAgent) : ag.Preserves ag :=
  ⟨fun _ v h => ⟨v, h, rfl⟩, fun _ v h => ⟨v, h, rfl⟩, fun _ _ => le_refl _⟩

lemma preserves_trans {ag ag' ag'' : SarsaAgent}
    (h1 : ag.Preserves ag') (h2 : ag'.Preserves ag'') : ag.Preserves ag'' := by
  obtain ⟨hq1, hn1, hm1⟩ := h1
  obtain ⟨hq2, hn2, hm2⟩ := h2
  refine ⟨?_, ?_, ?_⟩
  · intro t v h
    obtain ⟨v', h', hl'⟩ := hq1 t v h
    obtain ⟨v'', h'', hl''⟩ := hq2 t v' h'
    exact ⟨v'', h'', hl''.trans hl'⟩
  · intro t v h
    obtain ⟨v', h', hl'⟩ := hn1 t v h
    obtain ⟨v'', h'', hl''⟩ := hn2 t v' h'
    exact ⟨v'', h'', hl''.trans hl'⟩
  · intro t i
    exact le_trans (hm1 t i) (hm2 t i)

lemma preserves_qVec (ag : SarsaAgent) (s : StateId) (k : ℕ) :
    ag.Preserves (ag.qVec s k).1 := by
  refine ⟨?_, ?_, ?_⟩
  · intro t v h
    rw [qVec_q_table]
    by_cases ht : t = s
    · subst ht
      exact ⟨v, by simp [h], rfl⟩
    · exact ⟨v, by simp [ht, h], rfl⟩
  · intro t v h
    exact ⟨v, by rw [qVec_n_table]; exact h, rfl⟩
  · intro t i
    simp [SarsaAgent.nAt, qVec_n_table]

lemma preserves_nVec (ag : SarsaAgent) (s : StateId) (k : ℕ) :
    ag.Preserves (ag.nVec s k).1 := by
  refine ⟨?_, ?_, ?_⟩
  · intro t v h
    exact ⟨v, by rw [nVec_q_table]; exact h, rfl⟩
  · intro t v h
    rw [nVec_n_table]
    by_cases ht : t = s
    · subst ht
      exact ⟨v, by simp [h], rfl⟩
    · exact ⟨v, by simp [ht, h], rfl⟩
  · intro t i
    rw [SarsaAgent.nAt, SarsaAgent.nAt, nVec_n_table]
    by_cases ht : t = s
    · subst ht
      cases h : ag.n_table t with
      | some v => simp [h]
      | none => simp [h, getD_replicate_zero_nat]
    · simp [ht]

lemma preserves_nIncrement (ag : SarsaAgent) (s : StateId) (k : ℕ) (a : ℕ) :
    ag.Preserves (ag.nIncrement s k a) := by
  refine ⟨?_, ?_, ?_⟩
  · intro t v h
    exact ⟨v, by rw [nIncrement_q_table]; exact h, rfl⟩
  · intro t v h
    rw [nIncrement_n_table]
    by_cases ht : t = s
    · subst ht
      refine ⟨v.set a (v.getD a 0 + 1), ?_, by simp⟩
      simp [h]
    · exact ⟨v, by simp [ht, h], rfl⟩
  · intro t i
    rw [SarsaAgent.nAt, SarsaAgent.nAt, nIncrement_n_table]
    by_cases ht : t = s
    · subst ht
      cases h : ag.n_table t with
      | some v =>
        simp only [h, Option.getD_some]
        exact getD_set_nat_le v a i _ (Nat.le_succ _)
      | none => simp [h]
    · simp [ht]

lemma preserves_qUpdate (ag : SarsaAgent) (s : StateId) (a : ℕ) (sNew : StateId)
    (aNew : ℕ) (r : ℚ) (k : ℕ) :
    ag.Preserves (ag.qUpdate s a sNew aNew r k) := by
  refine ⟨?_, ?_, ?_⟩
  · intro t v h
    rw [qUpdate_q_table]
    by_cases hts : t = s
    · subst hts
      refine ⟨((ag.q_table t).getD (List.replicate k 0)).set a
          (((ag.q_table t).getD (List.replicate k 0)).getD a 0
            + ag.alpha * (r
              + ag.gamma * (((ag.q_table sNew).getD (List.replicate k 0)).getD aNew 0)
              - ((ag.q_table t).getD (List.replicate k 0)).getD a 0)),
        by simp, ?_⟩
      simp [h]
    · by_cases htn : t = sNew
      · subst htn
        exact ⟨v, by simp [hts, h], rfl⟩
      · exact ⟨v, by simp [hts, htn, h], rfl⟩
  · intro t v h
    exact ⟨v, by rw [qUpdate_n_table]; exact h, rfl⟩
  · intro t i
    simp [SarsaAgent.nAt, qUpdate_n_table]

lemma preserves_chooseActionEgreedy (ag : SarsaAgent) (s : StateId) (k : ℕ)
    (epsilon u : ℚ) (j : ℕ) :
    ag.Preserves (ag.chooseActionEgreedy s k epsilon u j).1 := by
  rw [SarsaAgent.chooseActionEgreedy]
  split
  · exact preserves_refl ag
  · exact preserves_qVec ag s k

lemma preserves_chooseActionUcb (ag : SarsaAgent) (s : StateId) (k : ℕ)
    (c : ℚ) (sqrt log : ℚ → ℚ) :
    ag.Preserves (ag.chooseActionUcb s k c sqrt log).1 := by
  rw [SarsaAgent.chooseActionUcb]
  simp only []
  split
  · exact preserves_nVec ag s k
  · exact preserves_trans (preserves_nVec ag s k)
      (preserves_qVec (ag.nVec s k).1 s k)

lemma preserves_chooseAction (ag : SarsaAgent) (s : StateId) (k : ℕ)
    (param : ℚ) (sqrt log : ℚ → ℚ) (u : ℚ) (j : ℕ) :
    ag.Preserves (ag.chooseAction s k param sqrt log u j).1 := by
  rw [SarsaAgent.chooseAction]
  split
  · exact preserves_chooseActionUcb ag s k param sqrt log
  · exact preserves_chooseActionEgreedy ag s k param u j

lemma preserves_episodeStep (ag : SarsaAgent) (s : StateId) (a : ℕ)
    (sNew : StateId) (r : ℚ) (k : ℕ) (param : ℚ) (sqrt log : ℚ → ℚ)
    (u : ℚ) (j : ℕ) :
    ag.Preserves (ag.episodeStep s a sNew r k param sqrt log u j).1 := by
  rw [SarsaAgent.episodeStep]
  exact preserves_trans (preserves_nIncrement ag s k a)
    (preserves_trans
      (preserves_chooseAction (ag.nIncrement s k a) sNew k param sqrt log u j)
      (preserves_qUpdate _ s a sNew _ r k))

/-! ### UCB selection characterization -/

/-- Modelled from the spec's words (for the refinement comparison): the
adjusted UCB score vector with `bonus[a] = c * sqrt(2 * ln(totalVisits) / n[a])`,
added to `Q[a]` entry by entry. -/
def ucbAdjSpec (c : ℚ) (sqrt log : ℚ → ℚ) (q : List ℚ) (n : List ℕ) : List ℚ :=
  List.zipWith (fun (qa : ℚ) (na : ℕ) => qa + c * sqrt (2 * log ((n.sum : ℚ)) / (na : ℚ)))
    q n

lemma zipWith_add_map (q : List ℚ) (n : List ℕ) (f : ℕ → ℚ) :
    List.zipWith (fun a b => a + b) q (n.map f)
      = List.zipWith (fun (qa : ℚ) (na : ℕ) => qa + f na) q n := by
  induction q generalizing n with
  | nil => simp
  | cons x xs ih =>
    cases n with
    | nil => simp
    | cons y ys => simp [ih]

lemma chooseActionUcb_eq (ag : SarsaAgent) (s : StateId) (k : ℕ) (c : ℚ)
    (sqrt log : ℚ → ℚ) :
    (ag.chooseActionUcb s k c sqrt log).2 =
      if 0 ∈ (ag.n_table s).getD (List.replicate k 0) then
        firstZeroIdx ((ag.n_table s).getD (List.replicate k 0))
      else
        argmax (ucbAdjSpec c sqrt log
          ((ag.q_table s).getD (List.replicate k 0))
          ((ag.n_table s).getD (List.replicate k 0))) := by
  rw [SarsaAgent.chooseActionUcb]
  simp only [nVec_snd, qVec_snd]
  have hq : (ag.nVec s k).1.q_table s = ag.q_table s := by
    rw [nVec_q_table]
  split
  · rfl
  · dsimp only
    rw [hq, ucbAdjSpec, zipWith_add_map]
    simp only [mul_div_assoc]

/-! ### Forced exploration of UCB -/

/-- One forced-exploration round: a UCB selection immediately followed by
the visit-count increment for the chosen index (the order in which
`_run_episode` touches the count of the pair it acts on). -/
def ucbRound (ag : SarsaAgent) (s : StateId) (k : ℕ) (c : ℚ)
    (sqrt log : ℚ → ℚ) : SarsaAgent × ℕ :=
  let p := ag.chooseActionUcb s k c sqrt log
  (p.1.nIncrement s k p.2, p.2)

/-- `m` successive forced-exploration rounds, returning the final agent and
the list of chosen indices in order. -/
def ucbRounds (ag : SarsaAgent) (s : StateId) (k : ℕ) (c : ℚ)
    (sqrt log : ℚ → ℚ) : ℕ → SarsaAgent × List ℕ
  | 0 => (ag, [])
  | m + 1 =>
    let p := ucbRound ag s k c sqrt log
    let rest := ucbRounds p.1 s k c sqrt log m
    (rest.1, p.2 :: rest.2)

lemma zero_mem_ones_append_zeros {m k : ℕ} (h : m < k) :
    0 ∈ List.replicate m 1 ++ List.replicate (k - m) (0 : ℕ) := by
  refine List.mem_append_right _ ?_
  exact List.mem_replicate.mpr ⟨by omega, rfl⟩

lemma firstZeroIdx_ones_cons (m : ℕ) (rest : List ℕ) :
    firstZeroIdx (List.replicate m 1 ++ (0 :: rest)) = m := by
  induction m with
  | zero => simp [firstZeroIdx]
  | succ m' ih =>
    rw [List.replicate_succ, List.cons_append, firstZeroIdx]
    simp [ih]

lemma set_ones_append_cons (m z : ℕ) (y : ℕ) (rest : List ℕ) :
    (List.replicate m 1 ++ (y :: rest)).set m z = List.replicate m 1 ++ (z :: rest) := by
  induction m with
  | zero => simp
  | succ m' ih =>
    rw [List.replicate_succ, List.cons_append, List.cons_append, List.set_cons_succ, ih]

lemma getD_ones_append_cons (m : ℕ) (y : ℕ) (rest : List ℕ) :
    (List.replicate m 1 ++ (y :: rest)).getD m 0 = y := by
  induction m with
  | zero => simp
  | succ m' ih =>
    rw [List.replicate_succ, List.cons_append, List.getD_cons_succ, ih]

lemma ones_append_zeros_split {m k : ℕ} (h : m < k) :
    List.replicate m 1 ++ List.replicate (k - m) (0 : ℕ)
      = List.replicate m 1 ++ (0 :: List.replicate (k - m - 1) (0 : ℕ)) := by
  have hkm : k - m = (k - m - 1) + 1 := by omega
  conv_lhs => rw [hkm, List.replicate_succ]

lemma chooseActionUcb_allzero_state (ag : SarsaAgent) (s : StateId) (k m : ℕ)
    (c : ℚ) (sqrt log : ℚ → ℚ) (hm : m < k)
    (hn : ag.n_table s = some (List.replicate m 1 ++ List.replicate (k - m) 0)) :
    (ag.chooseActionUcb s k c sqrt log).2 = m := by
  rw [chooseActionUcb_eq, hn]
  rw [Option.getD_some, if_pos (zero_mem_ones_append_zeros hm)]
  rw [ones_append_zeros_split hm, firstZeroIdx_ones_cons]

lemma chooseActionUcb_fst_n_table (ag : SarsaAgent) (s : StateId) (k : ℕ)
    (c : ℚ) (sqrt log : ℚ → ℚ) (t : StateId) :
    (ag.chooseActionUcb s k c sqrt log).1.n_table t =
      if t = s then some ((ag.n_table s).getD (List.replicate k 0))
      else ag.n_table t := by
  rw [SarsaAgent.chooseActionUcb]
  dsimp only
  split
  · rw [nVec_n_table]
  · rw [qVec_n_table, nVec_n_table]

lemma ucbRound_allzero (ag : SarsaAgent) (s : StateId) (k m : ℕ) (c : ℚ)
    (sqrt log : ℚ → ℚ) (hm : m < k)
    (hn : ag.n_table s = some (List.replicate m 1 ++ List.replicate (k - m) 0)) :
    (ucbRound ag s k c sqrt log).2 = m ∧
    (ucbRound ag s k c sqrt log).1.n_table s
      = some (List.replicate (m + 1) 1 ++ List.replicate (k - (m + 1)) 0) := by
  have hsel : (ag.chooseActionUcb s k c sqrt log).2 = m :=
    chooseActionUcb_allzero_state ag s k m c sqrt log hm hn
  refine ⟨hsel, ?_⟩
  rw [ucbRound]
  dsimp only
  rw [nIncrement_n_table, if_pos rfl, chooseActionUcb_fst_n_table, if_pos rfl, hn]
  simp only [Option.getD_some]
  rw [hsel, ones_append_zeros_split hm, getD_ones_append_cons, set_ones_append_cons]
  have h1 : List.replicate (m + 1) 1 = List.replicate m 1 ++ [1] :=
    List.replicate_succ' m 1
  have h2 : k - (m + 1) = k - m - 1 := by omega
  rw [h1, h2, List.append_assoc, List.singleton_append]

lemma ucbRounds_forced (s : StateId) (k : ℕ) (c : ℚ) (sqrt log : ℚ → ℚ)
    (j : ℕ) :
    ∀ (m : ℕ) (ag : SarsaAgent), m + j ≤ k →
    ag.n_table s = some (List.replicate m 1 ++ List.replicate (k - m) 0) →
    (ucbRounds ag s k c sqrt log j).2 = List.range' m j := by
  induction j with
  | zero =>
    intro m ag _ _
    rfl
  | succ j' ih =>
    intro m ag hmk hn
    have hm : m < k := by omega
    obtain ⟨hsel, htab⟩ := ucbRound_allzero ag s k m c sqrt log hm hn
    show (ucbRound ag s k c sqrt log).2
        :: (ucbRounds (ucbRound ag s k c sqrt log).1 s k c sqrt log j').2
      = List.range' m (j' + 1)
    rw [hsel, ih (m + 1) (ucbRound ag s k c sqrt log).1 (by omega) htab]
    rfl

/-! ### Concrete agents for witnesses and counterexamples -/

/-- A freshly constructed egreedy agent with `max_epsilon = 1`,
`min_epsilon = 0` (the configuration of the epsilon-decay claim). -/
def agE10 : SarsaAgent :=
  { type := "egreedy", alpha := 1/10, gamma := 9/10, max_epsilon := 1,
    min_epsilon := 0, c := 1, n_table := fun _ => none, q_table := fun _ => none }

/-- A UCB agent with `c = 0` whose state `0` has visit counts `[1, 0]`
(action 1 unvisited) and Q-values `[5, 0]`. -/
def agC4 : SarsaAgent :=
  { type := "UCB", alpha := 1/10, gamma := 9/10, max_epsilon := 1,
    min_epsilon := 1/50, c := 0,
    n_table := fun s => if s = 0 then some [1, 0] else none,
    q_table := fun s => if s = 0 then some [5, 0] else none }

/-- An agent whose Q-table holds `Q(0, 0) = 2` and `Q(1, 0) = 4` (the
concrete SARSA-update instance of the spec). -/
def agC1 : SarsaAgent :=
  { type := "egreedy", alpha := 1/10, gamma := 1/2, max_epsilon := 1,
    min_epsilon := 0, c := 1,
    n_table := fun _ => none,
    q_table := fun s => if s = 0 then some [2] else if s = 1 then some [4] else none }

/-- A UCB agent whose state `0` has all-nonzero visit counts `[1, 2]` and
Q-values `[3, 4]`. -/
def agC2 : SarsaAgent :=
  { type := "UCB", alpha := 1/10, gamma := 9/10, max_epsilon := 1,
    min_epsilon := 1/50, c := 1,
    n_table := fun s => if s = 0 then some [1, 2] else none,
    q_table := fun s => if s = 0 then some [3, 4] else none }

/-- A UCB agent whose state `0` has three actions, none visited yet. -/
def agZ3 : SarsaAgent :=
  { type := "UCB", alpha := 1/10, gamma := 9/10, max_epsilon := 1,
    min_epsilon := 1/50, c := 1,
    n_table := fun s => if s = 0 then some [0, 0, 0] else none,
    q_table := fun _ => none }

/-! ### The claims -/

/-- C1: for every transition `(s, a, s', a', r)` and configuration, the
SARSA update stores `Q(s,a) + alpha * (r + gamma * Q(s',a') - Q(s,a))` at
`(s, a)`; at `Q(s,a)=2`, `Q(s',a')=4`, `r=1`, `gamma=1/2`, `alpha=1/10`
the stored value is exactly `2.1` (see the witness). -/
theorem C1_sarsa_update (ag : SarsaAgent) (s : StateId) (a : ℕ) (sNew : StateId)
    (aNew : ℕ) (r : ℚ) (k : ℕ)
    (ha : a < ((ag.q_table s).getD (List.replicate k 0)).length) :
    (ag.qUpdate s a sNew aNew r k).qAt s a =
      ag.qAt s a + ag.alpha * (r + ag.gamma * ag.qAt sNew aNew - ag.qAt s a) := by
  rw [SarsaAgent.qAt, qUpdate_q_table, if_pos rfl, Option.getD_some,
    getD_set_self (by simpa using ha)]
  cases h1 : ag.q_table s with
  | some v =>
    cases h2 : ag.q_table sNew with
    | some w => simp [SarsaAgent.qAt, h1, h2]
    | none => simp [SarsaAgent.qAt, h1, h2, getD_replicate_zero]
  | none =>
    cases h2 : ag.q_table sNew with
    | some w => simp [SarsaAgent.qAt, h1, h2, getD_replicate_zero]
    | none => simp [SarsaAgent.qAt, h1, h2, getD_replicate_zero]

/-- Witness for C1 at the spec's concrete instance: `Q(s,a)=2`,
`Q(s',a')=4`, `r=1`, `gamma=1/2`, `alpha=1/10` gives exactly `21/10`. -/
theorem C1_sarsa_update_witness :
    (agC1.qUpdate 0 0 1 0 1 1).qAt 0 0 =
      agC1.qAt 0 0 + agC1.alpha * (1 + agC1.gamma * agC1.qAt 1 0 - agC1.qAt 0 0)
    ∧ agC1.qAt 0 0 + agC1.alpha * (1 + agC1.gamma * agC1.qAt 1 0 - agC1.qAt 0 0)
      = 21/10 := by
  constructor
  · exact C1_sarsa_update agC1 0 0 1 0 1 1 (by decide)
  · norm_num [SarsaAgent.qAt, agC1]

/-- C3 counterexample: with `maxEpsilon=1`, `minEpsilon=0`,
`numEpisodes=10`, the parameter actually used during episode `1` is `1`
(the decay computed after episode `0` subtracts `0 * step`), not
`1 - 1/10` as the claim states. -/
theorem C3_decay_counterexample :
    agE10.type = "egreedy" ∧ agE10.max_epsilon = 1 ∧ agE10.min_epsilon = 0 ∧
    agE10.trainParam 10 1 = 1 ∧ ¬ agE10.trainParam 10 1 = 1 - 1/10 := by
  refine ⟨rfl, rfl, rfl, ?_, ?_⟩ <;>
    norm_num [SarsaAgent.trainParam, SarsaAgent.epsilonDecay, agE10]

/-- C3 amended: the parameter used during episode `e` is `maxEpsilon` for
`e = 0` and `maxEpsilon - (e-1) * (maxEpsilon - minEpsilon)/numEpisodes`
for `e ≥ 1` (so `1` at episodes 0 and 1, then `1 - (e-1)/10`); after each
episode `e` the egreedy parameter for the next episode is set to
`maxEpsilon - e * (maxEpsilon - minEpsilon)/numEpisodes`, and the UCB
parameter `c` is never decayed. -/
theorem C3_decay_amended :
    (∀ e : ℕ, e < 10 →
      agE10.trainParam 10 e = if e = 0 then 1 else 1 - ((e : ℚ) - 1) / 10)
  ∧ (∀ (ag : SarsaAgent) (numEpisodes e : ℕ), ag.type = "egreedy" →
      ag.trainParam numEpisodes (e + 1)
        = ag.max_epsilon - (ag.max_epsilon - ag.min_epsilon) / (numEpisodes : ℚ) * e)
  ∧ (∀ (ag : SarsaAgent) (numEpisodes e : ℕ), ag.type = "UCB" →
      ag.trainParam numEpisodes e = ag.c) := by
  refine ⟨?_, ?_, ?_⟩
  · intro e _
    match e with
    | 0 => norm_num [SarsaAgent.trainParam, agE10]
    | e' + 1 =>
      rw [SarsaAgent.trainParam, if_pos (show agE10.type = "egreedy" from rfl),
        if_neg (Nat.succ_ne_zero e')]
      simp only [SarsaAgent.epsilonDecay, agE10]
      push_cast
      ring
  · intro ag numEpisodes e h
    rw [SarsaAgent.trainParam, if_pos h, SarsaAgent.epsilonDecay]
  · intro ag numEpisodes e h
    induction e with
    | zero => rw [SarsaAgent.trainParam, if_pos h]
    | succ e' ih =>
      rw [SarsaAgent.trainParam, if_neg (by rw [h]; decide), ih]

/-- Witness for C3 amended: at episode `2` the parameter is `9/10`; the
decay after episode `1` of a generic egreedy agent follows the formula;
the UCB parameter at episode `5` is `c`. -/
theorem C3_decay_amended_witness :
    agE10.trainParam 10 2
      = (if (2 : ℕ) = 0 then (1 : ℚ) else 1 - (((2 : ℕ) : ℚ) - 1) / 10)
    ∧ agC4.trainParam 7 5 = agC4.c := by
  exact ⟨C3_decay_amended.1 2 (by norm_num), C3_decay_amended.2.2 agC4 7 5 rfl⟩

/-- C7: `reset()` replaces both tables with fresh empty containers, so the
reset agent is literally the freshly constructed agent with the same
configuration — hence all subsequent observable behavior coincides. -/
theorem C7_reset_equals_fresh (ag : SarsaAgent) (h : ag.type ∈ SarsaAgent.types) :
    SarsaAgent.init ag.type ag.alpha ag.gamma ag.max_epsilon ag.min_epsilon ag.c
      = Except.ok ag.reset := by
  rw [SarsaAgent.init, if_pos h]
  rfl

/-- Witness for C7 at the concrete agent `agC4` (non-empty tables). -/
theorem C7_reset_equals_fresh_witness :
    SarsaAgent.init agC4.type agC4.alpha agC4.gamma agC4.max_epsilon
      agC4.min_epsilon agC4.c = Except.ok agC4.reset :=
  C7_reset_equals_fresh agC4 (by decide)

/-- C8: construction succeeds exactly when the strategy tag is `"UCB"` or
`"egreedy"`, for every value of the numeric hyperparameters (no bounds
validation). -/
theorem C8_construction (type : String) (alpha gamma maxE minE c : ℚ) :
    (∃ ag, SarsaAgent.init type alpha gamma maxE minE c = Except.ok ag)
      ↔ (type = "UCB" ∨ type = "egreedy") := by
  have hmem : (type ∈ SarsaAgent.types) ↔ (type = "UCB" ∨ type = "egreedy") := by
    simp [SarsaAgent.types]
  rw [SarsaAgent.init]
  by_cases h : type ∈ SarsaAgent.types
  · rw [if_pos h]
    exact ⟨fun _ => hmem.mp h, fun _ => ⟨_, rfl⟩⟩
  · rw [if_neg h]
    exact ⟨fun ⟨ag, hag⟩ => absurd hag (by simp), fun hd => absurd (hmem.mpr hd) h⟩

lemma length_ucbAdjSpec (c : ℚ) (sqrt log : ℚ → ℚ) (q : List ℚ) (n : List ℕ) :
    (ucbAdjSpec c sqrt log q n).length = min q.length n.length := by
  rw [ucbAdjSpec, List.length_zipWith]

/-- C2: UCB selection returns the lowest zero-count index when one exists,
and otherwise the argmax (lowest index among maxima) of
`Q[a] + c * sqrt(2 * ln(sum n) / n[a])`; consequently, from all-zero
counts, `k` selection-then-increment rounds return `0, 1, ..., k-1`. -/
theorem C2_ucb_selection :
    (∀ (ag : SarsaAgent) (s : StateId) (k : ℕ) (c : ℚ) (sqrt log : ℚ → ℚ),
      0 ∈ (ag.n_table s).getD (List.replicate k 0) →
        (ag.chooseActionUcb s k c sqrt log).2
            = firstZeroIdx ((ag.n_table s).getD (List.replicate k 0))
        ∧ firstZeroIdx ((ag.n_table s).getD (List.replicate k 0))
            < ((ag.n_table s).getD (List.replicate k 0)).length
        ∧ ((ag.n_table s).getD (List.replicate k 0)).getD
            (firstZeroIdx ((ag.n_table s).getD (List.replicate k 0))) 1 = 0
        ∧ ∀ i, i < firstZeroIdx ((ag.n_table s).getD (List.replicate k 0)) →
            ((ag.n_table s).getD (List.replicate k 0)).getD i 1 ≠ 0)
  ∧ (∀ (ag : SarsaAgent) (s : StateId) (k : ℕ) (c : ℚ) (sqrt log : ℚ → ℚ),
      0 ∉ (ag.n_table s).getD (List.replicate k 0) → 0 < k →
      ((ag.n_table s).getD (List.replicate k 0)).length = k →
      ((ag.q_table s).getD (List.replicate k 0)).length = k →
        (ag.chooseActionUcb s k c sqrt log).2
            = argmax (ucbAdjSpec c sqrt log
                ((ag.q_table s).getD (List.replicate k 0))
                ((ag.n_table s).getD (List.replicate k 0)))
        ∧ argmax (ucbAdjSpec c sqrt log
              ((ag.q_table s).getD (List.replicate k 0))
              ((ag.n_table s).getD (List.replicate k 0))) < k
        ∧ (∀ i, i < k →
            (ucbAdjSpec c sqrt log ((ag.q_table s).getD (List.replicate k 0))
                ((ag.n_table s).getD (List.replicate k 0))).getD i 0
              ≤ (ucbAdjSpec c sqrt log ((ag.q_table s).getD (List.replicate k 0))
                  ((ag.n_table s).getD (List.replicate k 0))).getD
                  (argmax (ucbAdjSpec c sqrt log
                    ((ag.q_table s).getD (List.replicate k 0))
                    ((ag.n_table s).getD (List.replicate k 0)))) 0)
        ∧ (∀ i, i < argmax (ucbAdjSpec c sqrt log
              ((ag.q_table s).getD (List.replicate k 0))
              ((ag.n_table s).getD (List.replicate k 0))) →
            (ucbAdjSpec c sqrt log ((ag.q_table s).getD (List.replicate k 0))
                ((ag.n_table s).getD (List.replicate k 0))).getD i 0
              < (ucbAdjSpec c sqrt log ((ag.q_table s).getD (List.replicate k 0))
                  ((ag.n_table s).getD (List.replicate k 0))).getD
                  (argmax (ucbAdjSpec c sqrt log
                    ((ag.q_table s).getD (List.replicate k 0))
                    ((ag.n_table s).getD (List.replicate k 0)))) 0))
  ∧ (∀ (ag : SarsaAgent) (s : StateId) (k : ℕ) (c : ℚ) (sqrt log : ℚ → ℚ),
      ag.n_table s = some (List.replicate k 0) →
      (ucbRounds ag s k c sqrt log k).2 = List.range k) := by
  refine ⟨?_, ?_, ?_⟩
  · intro ag s k c sqrt log h
    obtain ⟨h1, h2, h3⟩ := firstZeroIdx_spec _ h
    exact ⟨by rw [chooseActionUcb_eq, if_pos h], h1, h2, h3⟩
  · intro ag s k c sqrt log h hk hnl hql
    have hlen : (ucbAdjSpec c sqrt log
        ((ag.q_table s).getD (List.replicate k 0))
        ((ag.n_table s).getD (List.replicate k 0))).length = k := by
      rw [length_ucbAdjSpec, hnl, hql, Nat.min_self]
    refine ⟨by rw [chooseActionUcb_eq, if_neg h], ?_, ?_, ?_⟩
    · have harg := argmax_lt_length _ (by rw [hlen]; exact hk)
      rw [hlen] at harg
      exact harg
    · intro i hi
      exact getD_le_argmax _ i (by rw [hlen]; exact hi)
    · intro i hi
      exact getD_lt_of_lt_argmax _ i hi
  · intro ag s k c sqrt log hn
    have h0 : ag.n_table s
        = some (List.replicate 0 1 ++ List.replicate (k - 0) 0) := by
      simpa using hn
    rw [ucbRounds_forced s k c sqrt log k 0 ag (by omega) h0,
      List.range_eq_range']

/-- Witness for C2: at `agZ3` (counts `[0,0,0]`) the zero branch fires and
three rounds return `[0, 1, 2]`; at `agC2` (counts `[1,2]`) the
value-comparison branch returns the argmax of the adjusted scores. -/
theorem C2_ucb_selection_witness :
    (agZ3.chooseActionUcb 0 3 1 id id).2
        = firstZeroIdx ((agZ3.n_table 0).getD (List.replicate 3 0))
    ∧ (ucbRounds agZ3 0 3 1 id id 3).2 = List.range 3
    ∧ (agC2.chooseActionUcb 0 2 1 id id).2
        = argmax (ucbAdjSpec 1 id id
            ((agC2.q_table 0).getD (List.replicate 2 0))
            ((agC2.n_table 0).getD (List.replicate 2 0))) := by
  refine ⟨(C2_ucb_selection.1 agZ3 0 3 1 id id (by decide)).1,
    C2_ucb_selection.2.2 agZ3 0 3 1 id id (by decide),
    (C2_ucb_selection.2.1 agC2 0 2 1 id id (by decide) (by decide)
      (by decide) (by decide)).1⟩

lemma zipWith_fst_eq (q : List ℚ) (n : List ℕ) (h : q.length ≤ n.length) :
    List.zipWith (fun (qa : ℚ) (_ : ℕ) => qa) q n = q := by
  induction q generalizing n with
  | nil => rfl
  | cons x xs ih =>
    cases n with
    | nil => simp at h
    | cons y ys =>
      rw [List.zipWith_cons_cons, ih ys (by simpa using h)]

lemma ucbAdjSpec_zero (sqrt log : ℚ → ℚ) (q : List ℚ) (n : List ℕ)
    (h : q.length ≤ n.length) :
    ucbAdjSpec 0 sqrt log q n = q := by
  rw [ucbAdjSpec]
  have hfun : (fun (qa : ℚ) (na : ℕ) =>
      qa + 0 * sqrt (2 * log ((n.sum : ℚ)) / (na : ℚ))) = fun (qa : ℚ) (_ : ℕ) => qa := by
    funext qa na
    rw [zero_mul, add_zero]
  rw [hfun, zipWith_fst_eq q n h]

/-- C4 counterexample: the UCB agent `agC4` has `c = 0` and action `1`
unvisited at state `0`; greedy selection (parameter `0`) returns index `1`,
while the greedy argmax of its Q-vector `[5, 0]` is index `0`. -/
theorem C4_greedy_counterexample :
    agC4.c = 0
    ∧ (agC4.chooseGreedyAction 0 2 id id 0 0).2 = 1
    ∧ argmax ((agC4.q_table 0).getD (List.replicate 2 0)) = 0 := by
  exact ⟨rfl, by decide, by decide⟩

/-- C4 amended: with parameter `0`, epsilon-greedy selection always returns
the greedy argmax; UCB selection returns the greedy argmax provided every
visit count of the state is nonzero, and otherwise returns the lowest
zero-count index regardless of the Q-values; `_choose_greedy_action` is
`_choose_action` at parameter `0` (so for UCB agents it inherits the
zero-count branch). -/
theorem C4_greedy_amended :
    (∀ (ag : SarsaAgent) (s : StateId) (k : ℕ) (sqrt log : ℚ → ℚ) (u : ℚ) (j : ℕ),
        ag.type ≠ "UCB" → 0 ≤ u →
        (ag.chooseAction s k 0 sqrt log u j).2
          = argmax ((ag.q_table s).getD (List.replicate k 0)))
  ∧ (∀ (ag : SarsaAgent) (s : StateId) (k : ℕ) (sqrt log : ℚ → ℚ) (u : ℚ) (j : ℕ),
        ag.type = "UCB" →
        0 ∉ (ag.n_table s).getD (List.replicate k 0) →
        ((ag.q_table s).getD (List.replicate k 0)).length
          ≤ ((ag.n_table s).getD (List.replicate k 0)).length →
        (ag.chooseAction s k 0 sqrt log u j).2
          = argmax ((ag.q_table s).getD (List.replicate k 0)))
  ∧ (∀ (ag : SarsaAgent) (s : StateId) (k : ℕ) (sqrt log : ℚ → ℚ) (u : ℚ) (j : ℕ),
        ag.type = "UCB" →
        0 ∈ (ag.n_table s).getD (List.replicate k 0) →
        (ag.chooseAction s k 0 sqrt log u j).2
          = firstZeroIdx ((ag.n_table s).getD (List.replicate k 0)))
  ∧ (∀ (ag : SarsaAgent) (s : StateId) (k : ℕ) (sqrt log : ℚ → ℚ) (u : ℚ) (j : ℕ),
        ag.chooseGreedyAction s k sqrt log u j = ag.chooseAction s k 0 sqrt log u j) := by
  refine ⟨?_, ?_, ?_, ?_⟩
  · intro ag s k sqrt log u j htype hu
    rw [SarsaAgent.chooseAction, if_neg htype, SarsaAgent.chooseActionEgreedy,
      if_neg (not_lt.mpr hu)]
    dsimp only
    rw [qVec_snd]
  · intro ag s k sqrt log u j htype hz hlen
    rw [SarsaAgent.chooseAction, if_pos htype, chooseActionUcb_eq, if_neg hz,
      ucbAdjSpec_zero _ _ _ _ hlen]
  · intro ag s k sqrt log u j htype hz
    rw [SarsaAgent.chooseAction, if_pos htype, chooseActionUcb_eq, if_pos hz]
  · intro ag s k sqrt log u j
    rfl

/-- Witness for C4 amended: the egreedy agent `agE10` and the all-visited
UCB agent `agC2` both return the greedy argmax at parameter `0`; the UCB
agent `agC4` with a zero count returns the first zero-count index. -/
theorem C4_greedy_amended_witness :
    (agE10.chooseAction 0 1 0 id id 0 0).2
        = argmax ((agE10.q_table 0).getD (List.replicate 1 0))
    ∧ (agC2.chooseAction 0 2 0 id id 0 0).2
        = argmax ((agC2.q_table 0).getD (List.replicate 2 0))
    ∧ (agC4.chooseAction 0 2 0 id id 0 0).2
        = firstZeroIdx ((agC4.n_table 0).getD (List.replicate 2 0)) := by
  exact ⟨C4_greedy_amended.1 agE10 0 1 id id 0 0 (by decide) le_rfl,
    C4_greedy_amended.2.1 agC2 0 2 id id 0 0 rfl (by decide) (by decide),
    C4_greedy_amended.2.2.1 agC4 0 2 id id 0 0 rfl (by decide)⟩

/-- C5: epsilon-greedy selection returns the random index `j` when the
uniform draw `u` is below epsilon, and otherwise the argmax of the state's
Q-vector, which is its lowest maximising index. -/
theorem C5_egreedy_selection (ag : SarsaAgent) (s : StateId) (k : ℕ)
    (epsilon u : ℚ) (j : ℕ) :
    (u < epsilon → ag.chooseActionEgreedy s k epsilon u j = (ag, j))
    ∧ (¬ u < epsilon →
        (ag.chooseActionEgreedy s k epsilon u j).2
            = argmax ((ag.q_table s).getD (List.replicate k 0))
        ∧ (∀ i, i < ((ag.q_table s).getD (List.replicate k 0)).length →
            ((ag.q_table s).getD (List.replicate k 0)).getD i 0
              ≤ ((ag.q_table s).getD (List.replicate k 0)).getD
                  (argmax ((ag.q_table s).getD (List.replicate k 0))) 0)
        ∧ (∀ i, i < argmax ((ag.q_table s).getD (List.replicate k 0)) →
            ((ag.q_table s).getD (List.replicate k 0)).getD i 0
              < ((ag.q_table s).getD (List.replicate k 0)).getD
                  (argmax ((ag.q_table s).getD (List.replicate k 0))) 0)) := by
  constructor
  · intro h
    rw [SarsaAgent.chooseActionEgreedy, if_pos h]
  · intro h
    refine ⟨?_, ?_, ?_⟩
    · rw [SarsaAgent.chooseActionEgreedy, if_neg h]
      dsimp only
      rw [qVec_snd]
    · intro i hi
      exact getD_le_argmax _ i hi
    · intro i hi
      exact getD_lt_of_lt_argmax _ i hi

/-- Witness for C5: with `u = 1/4 < epsilon = 1/2` the random index `7` is
returned; with `u = 1/2 ≥ epsilon = 0` the greedy argmax is returned. -/
theorem C5_egreedy_selection_witness :
    agC1.chooseActionEgreedy 0 1 (1/2) (1/4) 7 = (agC1, 7)
    ∧ (agC1.chooseActionEgreedy 0 1 0 (1/2) 7).2
        = argmax ((agC1.q_table 0).getD (List.replicate 1 0)) := by
  exact ⟨(C5_egreedy_selection agC1 0 1 (1/2) (1/4) 7).1 (by norm_num),
    ((C5_egreedy_selection agC1 0 1 0 (1/2) 7).2 (by norm_num)).1⟩

/-- C6: the accessors insert exactly an all-zero vector of the action-space
length on first access and leave present entries untouched, and every agent
operation used in training (selection, visit-count increment, SARSA update,
and the whole episode step) preserves the table invariants: no key removed,
stored vector lengths fixed, visit counts non-decreasing. -/
theorem C6_table_invariants :
    (∀ (ag : SarsaAgent) (s : StateId) (k : ℕ),
        ag.q_table s = none → (ag.qVec s k).1.q_table s = some (List.replicate k 0))
  ∧ (∀ (ag : SarsaAgent) (s : StateId) (k : ℕ),
        ag.n_table s = none → (ag.nVec s k).1.n_table s = some (List.replicate k 0))
  ∧ (∀ (ag : SarsaAgent) (s : StateId) (k : ℕ) (v : List ℚ),
        ag.q_table s = some v → ag.qVec s k = (ag, v))
  ∧ (∀ (ag : SarsaAgent) (s : StateId) (k : ℕ) (v : List ℕ),
        ag.n_table s = some v → ag.nVec s k = (ag, v))
  ∧ (∀ (ag : SarsaAgent) (s : StateId) (k : ℕ) (param : ℚ)
        (sqrt log : ℚ → ℚ) (u : ℚ) (j : ℕ),
        ag.Preserves (ag.chooseAction s k param sqrt log u j).1)
  ∧ (∀ (ag : SarsaAgent) (s : StateId) (k a : ℕ),
        ag.Preserves (ag.nIncrement s k a))
  ∧ (∀ (ag : SarsaAgent) (s : StateId) (a : ℕ) (sNew : StateId) (aNew : ℕ)
        (r : ℚ) (k : ℕ),
        ag.Preserves (ag.qUpdate s a sNew aNew r k))
  ∧ (∀ (ag : SarsaAgent) (s : StateId) (a : ℕ) (sNew : StateId) (r : ℚ)
        (k : ℕ) (param : ℚ) (sqrt log : ℚ → ℚ) (u : ℚ) (j : ℕ),
        ag.Preserves (ag.episodeStep s a sNew r k param sqrt log u j).1) := by
  refine ⟨?_, ?_, ?_, ?_, ?_, ?_, ?_, ?_⟩
  · intro ag s k h
    rw [qVec_q_table, if_pos rfl, h]
    rfl
  · intro ag s k h
    rw [nVec_n_table, if_pos rfl, h]
    rfl
  · intro ag s k v h
    rw [SarsaAgent.qVec, h]
  · intro ag s k v h
    rw [SarsaAgent.nVec, h]
  · intro ag s k param sqrt log u j
    exact preserves_chooseAction ag s k param sqrt log u j
  · intro ag s k a
    exact preserves_nIncrement ag s k a
  · intro ag s a sNew aNew r k
    exact preserves_qUpdate ag s a sNew aNew r k
  · intro ag s a sNew r k param sqrt log u j
    exact preserves_episodeStep ag s a sNew r k param sqrt log u j

/-- Witness for C6: first access of an absent state inserts the zero
vector, and access of a present state returns the agent unchanged. -/
theorem C6_table_invariants_witness :
    (agE10.qVec 0 2).1.q_table 0 = some (List.replicate 2 0)
    ∧ (agE10.nVec 0 2).1.n_table 0 = some (List.replicate 2 0)
    ∧ agC2.qVec 0 2 = (agC2, [3, 4])
    ∧ agC2.nVec 0 2 = (agC2, [1, 2]) := by
  exact ⟨C6_table_invariants.1 agE10 0 2 rfl,
    C6_table_invariants.2.1 agE10 0 2 rfl,
    C6_table_invariants.2.2.1 agC2 0 2 [3, 4] rfl,
    C6_table_invariants.2.2.2.1 agC2 0 2 [1, 2] rfl⟩

/-- C9: the SARSA update leaves the N-table untouched and modifies only
entry `a` of state `s`'s Q-vector; other states keep their vectors, except
that `s'` may be freshly inserted with an all-zero vector. -/
theorem C9_update_frame (ag : SarsaAgent) (s : StateId) (a : ℕ)
    (sNew : StateId) (aNew : ℕ) (r : ℚ) (k : ℕ) :
    (ag.qUpdate s a sNew aNew r k).n_table = ag.n_table
    ∧ (∀ t, t ≠ s → t ≠ sNew →
        (ag.qUpdate s a sNew aNew r k).q_table t = ag.q_table t)
    ∧ (∀ t v, t ≠ s → ag.q_table t = some v →
        (ag.qUpdate s a sNew aNew r k).q_table t = some v)
    ∧ (∀ t, t ≠ s → t = sNew → ag.q_table t = none →
        (ag.qUpdate s a sNew aNew r k).q_table t = some (List.replicate k 0))
    ∧ (∀ t i, t ≠ s → (ag.qUpdate s a sNew aNew r k).qAt t i = ag.qAt t i)
    ∧ (∀ i, i ≠ a → (ag.qUpdate s a sNew aNew r k).qAt s i = ag.qAt s i) := by
  refine ⟨qUpdate_n_table ag s a sNew aNew r k, ?_, ?_, ?_, ?_, ?_⟩
  · intro t hts htn
    rw [qUpdate_q_table, if_neg hts, if_neg htn]
  · intro t v hts hv
    rw [qUpdate_q_table, if_neg hts]
    by_cases htn : t = sNew
    · subst htn
      rw [if_pos rfl, hv]
      rfl
    · rw [if_neg htn]
      exact hv
  · intro t hts htn hnone
    subst htn
    rw [qUpdate_q_table, if_neg hts, if_pos rfl, hnone]
    rfl
  · intro t i hts
    rw [SarsaAgent.qAt, SarsaAgent.qAt, qUpdate_q_table, if_neg hts]
    by_cases htn : t = sNew
    · subst htn
      cases h : ag.q_table t with
      | some w => simp [h]
      | none => simp [h, getD_replicate_zero]
    · rw [if_neg htn]
  · intro i hia
    rw [SarsaAgent.qAt, SarsaAgent.qAt, qUpdate_q_table, if_pos rfl,
      Option.getD_some, getD_set_ne (fun h => hia h.symm)]
    cases h : ag.q_table s with
    | some w => simp [h]
    | none => simp [h, getD_replicate_zero]

/-- Witness for C9 at a concrete update touching states `0` and `1`. -/
theorem C9_update_frame_witness :
    (agC1.qUpdate 0 0 1 0 1 1).n_table = agC1.n_table
    ∧ (agC1.qUpdate 0 0 1 0 1 1).q_table 2 = agC1.q_table 2
    ∧ (agC1.qUpdate 0 0 1 0 1 1).q_table 1 = some [4]
    ∧ (agC1.qUpdate 0 0 1 0 1 1).qAt 1 0 = agC1.qAt 1 0
    ∧ (agC1.qUpdate 0 0 1 0 1 1).qAt 0 3 = agC1.qAt 0 3 := by
  exact ⟨(C9_update_frame agC1 0 0 1 0 1 1).1,
    (C9_update_frame agC1 0 0 1 0 1 1).2.1 2 (by decide) (by decide),
    (C9_update_frame agC1 0 0 1 0 1 1).2.2.1 1 [4] (by decide) rfl,
    (C9_update_frame agC1 0 0 1 0 1 1).2.2.2.2.1 1 0 (by decide),
    (C9_update_frame agC1 0 0 1 0 1 1).2.2.2.2.2 3 (by decide)⟩

/-- C10: for a non-empty action space, any stored vectors of the selection
state having the action-space length, and any outcome of the random draws
(`j` in range), both selection strategies return an index below the
action-space length. -/
theorem C10_selection_in_range (ag : SarsaAgent) (s : StateId) (k : ℕ)
    (param : ℚ) (sqrt log : ℚ → ℚ) (u : ℚ) (j : ℕ)
    (hk : 0 < k) (hj : j < k)
    (hq : ∀ v, ag.q_table s = some v → v.length = k)
    (hn : ∀ v, ag.n_table s = some v → v.length = k) :
    (ag.chooseAction s k param sqrt log u j).2 < k := by
  have hqlen : ((ag.q_table s).getD (List.replicate k 0)).length = k := by
    cases h : ag.q_table s with
    | some v => exact hq v h
    | none => simp
  have hnlen : ((ag.n_table s).getD (List.replicate k 0)).length = k := by
    cases h : ag.n_table s with
    | some v => exact hn v h
    | none => simp
  rw [SarsaAgent.chooseAction]
  split
  · rw [chooseActionUcb_eq]
    split
    · rename_i hmem
      have := (firstZeroIdx_spec _ hmem).1
      rw [hnlen] at this
      exact this
    · have hlen : (ucbAdjSpec param sqrt log
          ((ag.q_table s).getD (List.replicate k 0))
          ((ag.n_table s).getD (List.replicate k 0))).length = k := by
        rw [length_ucbAdjSpec, hqlen, hnlen, Nat.min_self]
      have harg := argmax_lt_length _ (by rw [hlen]; exact hk)
      rw [hlen] at harg
      exact harg
  · rw [SarsaAgent.chooseActionEgreedy]
    split
    · exact hj
    · dsimp only
      rw [qVec_snd]
      have harg := argmax_lt_length _ (by rw [hqlen]; exact hk)
      rw [hqlen] at harg
      exact harg

/-- Witness for C10 at the concrete agent `agC2` (two actions). -/
theorem C10_selection_in_range_witness :
    (agC2.chooseAction 0 2 1 id id (1/2) 1).2 < 2 := by
  refine C10_selection_in_range agC2 0 2 1 id id (1/2) 1 (by norm_num)
    (by norm_num) ?_ ?_
  · intro v hv
    simp [agC2] at hv
    subst hv
    rfl
  · intro v hv
    simp [agC2] at hv
    subst hv
    rfl
